import Mathlib

/-!
Shallow embedding of the tftools repository (a PASCAL-VOC → TFRecord dataset
preparation tool) and proofs about the claims of its specification.

Sources embedded:
- `src/math.rs`            : `normalize`, `split` (IEEE CRC-32 based partition)
- `src/pascal_voc/label_map.rs` : `LabelMap` (`new`, `add`, `get`)
- `src/pascal_voc/parser.rs`    : `Annotation` data model, `Annotation::from_file`
- `src/pascal_voc/tfrecord.rs`  : `RecordBuilder::add_example`, `map_labels`,
  `get_normalized_coordinates`, `From<BuilderFeatures> for Example`
- `src/pascal_voc/features/prepare.rs` : `split_dataset`
- `math::retain` and `RecordBuilder::write_tfrecord` are called by the code but
  their bodies are absent from the sources; they are modelled from the spec
  (marked `Modelled from the spec:` below).

Machine integers are modelled as `Nat` with explicit `% 2^32` where overflow
matters; `i64` ids as `Int`; `f64` normalized coordinates as `Rat` (exact
rational model); byte strings as `List Nat`; fallible reads/parses as functions
into `Option`.
-/

namespace TFTools

/-- A byte string: each entry is a byte value (0..255). -/
abbrev Bytes := List Nat

/-! ## CRC-32 (reflected, init 0xFFFFFFFF, xor-out 0xFFFFFFFF)

`crc::crc32::checksum_ieee` (used by `math::split` and `math::retain`) is the
standard reflected IEEE CRC-32 with polynomial 0xEDB88320.  The CRC-32C
(Castagnoli, polynomial 0x82F63B78) is the variant the spec prescribes for
TFRecord frame masking. Both are the same bit-by-bit algorithm with different
polynomials, so we define the algorithm once, parametrised by the polynomial. -/

/-- One shift-and-conditionally-xor step of a reflected CRC. -/
def crcBitStep (poly r : Nat) : Nat :=
  if r % 2 = 1 then (r / 2) ^^^ poly else r / 2

/-- Fold one input byte into the CRC register. -/
def crcByteStep (poly r b : Nat) : Nat :=
  (List.range 8).foldl (fun acc _ => crcBitStep poly acc) (r ^^^ b)

/-- Run a reflected CRC with initial register and final xor 0xFFFFFFFF. -/
def crcRun (poly : Nat) (bytes : Bytes) : Nat :=
  (bytes.foldl (fun r b => crcByteStep poly r b) 0xFFFFFFFF) ^^^ 0xFFFFFFFF

/-- The IEEE CRC-32 `crc::crc32::checksum_ieee` from the `crc` crate, as called by `math.rs`. -/
def checksum_ieee (bytes : Bytes) : Nat := crcRun 0xEDB88320 bytes

/-- CRC-32C (Castagnoli polynomial), the variant used for TFRecord masking. -/
def checksum_castagnoli (bytes : Bytes) : Nat := crcRun 0x82F63B78 bytes

/-! ## `math::split` (src/math.rs lines 18-51) -/

/-- Embedding of the threshold computation in `math::split`:
`(u32::max_value() as f64 * right_ratio).round() as u32` where
`right_ratio = if ratio > 100 { 100f64 } else { ratio as f64 / 100f64 }`.

For `ratio > 100` the product is `4294967295.0 * 100.0`, far above `u32::MAX`,
and Rust's saturating float-to-int cast yields `u32::MAX`.

For `ratio ≤ 100` we use the exact rational value rounded half away from zero:
`(2 * ratio * 4294967295 + 100) / 200 = round(ratio * 4294967295 / 100)`.
This equals the f64 computation for every integer ratio in [0,100]: the
half-integer ties occur exactly at ratios 10, 30, 50, 70, 90, where the f64
product rounds to the exact tie value and `f64::round` rounds half away from
zero, matching the rational model; away from ties the value is at least 1/200
from a half-integer while the f64 error is below 2^-20. -/
def splitThreshold (right_ratio : Nat) : Nat :=
  if 100 < right_ratio then 4294967295
  else (2 * right_ratio * 4294967295 + 100) / 200

/-- Embedding of `math::split` (src/math.rs): partition the input by IEEE CRC-32.
The source loop pushes an element to `left` when `crc >= threshold` and to
`right` otherwise, preserving input order in each output; this is exactly
`List.partition` with predicate `threshold ≤ crc`. -/
def split (input : List Bytes) (right_ratio : Nat) : List Bytes × List Bytes :=
  let threshold := splitThreshold right_ratio
  input.partition (fun element => decide (threshold ≤ checksum_ieee element))

/-! ## `math::normalize` (src/math.rs lines 7-12)

`(value - min) / (max - min)` over `f64`, modelled exactly over `Rat`
(callers guarantee `max ≠ min`; Rat division by zero yields 0 where f64
would yield NaN/inf, a case no claim touches). -/

/-- Embedding of `math::normalize`. -/
def normalize (value min max : Rat) : Rat := (value - min) / (max - min)

/-! ## `LabelMap` (src/pascal_voc/label_map.rs)

The Rust struct holds `index: i64` and `map: HashMap<String, i64>`. The map is
modelled as an association list to which new bindings are appended; keys are
inserted only when absent, so lookup agrees with the HashMap. Mutation is
modelled by returning the new state alongside `add`'s return value. -/

structure LabelMap where
  index : Int
  map : List (String × Int)
deriving DecidableEq

/-- Embedding of `LabelMap::new`. -/
def LabelMap.new : LabelMap := ⟨1, []⟩

/-- Embedding of `LabelMap::get`. -/
def LabelMap.get (self : LabelMap) (label : String) : Option Int :=
  (self.map.lookup label)

/-- Embedding of `LabelMap::add` (src/pascal_voc/label_map.rs lines 27-34), faithfully:
```
let current = self.index;
if self.map.get(label).is_none() {
    self.map.insert(label.to_owned(), current);
    self.index += 1;
}
current
```
Note the returned value is `current = self.index` in BOTH branches. -/
def LabelMap.add (self : LabelMap) (label : String) : Int × LabelMap :=
  let current := self.index
  if (self.map.lookup label) = none then
    (current, ⟨self.index + 1, self.map ++ [(label, current)]⟩)
  else
    (current, self)

/-- Iterate `add` over a list of labels, discarding the returned ids (the call
pattern of `gen_label_map` in prepare.rs). -/
def LabelMap.addAll (self : LabelMap) (labels : List String) : LabelMap :=
  labels.foldl (fun acc l => (acc.add l).2) self

/-- First-occurrence subsequence of a list of labels, in encounter order. -/
def firstSeen (labels : List String) : List String :=
  labels.foldl (fun acc l => if l ∈ acc then acc else acc ++ [l]) []

/-! ## Annotation data model (src/pascal_voc/parser.rs)

Paths are modelled as strings with `/`-separated components. -/

/-- The `<source>` top level field. -/
structure Source where
  database : Option String
  annot : Option String
  image : Option String
deriving DecidableEq

/-- The `<size>` top level field (`width`/`height` are `u32`, `depth` is `u8`). -/
structure Size where
  width : Nat
  height : Nat
  depth : Nat
deriving DecidableEq

/-- Bounding box coordinates (`u32` pixel coordinates). -/
structure BndBox where
  xmin : Nat
  ymin : Nat
  xmax : Nat
  ymax : Nat
deriving DecidableEq

/-- The `<object>` top level field. -/
structure Object where
  name : String
  pose : String
  truncated : Bool
  difficult : Bool
  bndbox : BndBox
deriving DecidableEq

/-- A PASCAL-VOC annotation. `system_path` is the generated resolved path of
the companion image (set by `Annotation::from_file`). -/
structure Annot where
  folder : String
  filename : String
  path : String
  system_path : String
  source : Source
  size : Size
  segmented : Bool
  objects : List Object
deriving DecidableEq

/-- Split a character list on a separator character; the result always holds
one (possibly empty) chunk more than the number of separators. -/
def splitOnChar (c : Char) : List Char → List (List Char)
  | [] => [[]]
  | x :: xs =>
    match splitOnChar c xs with
    | [] => [[]]
    | hd :: tl => if x = c then [] :: hd :: tl else (x :: hd) :: tl

/-- Join chunks with a separator character (left inverse of `splitOnChar`). -/
def joinChar (c : Char) : List (List Char) → List Char
  | [] => []
  | [x] => x
  | x :: y :: tl => x ++ c :: joinChar c (y :: tl)

/-- Rust `Path::set_file_name`: replace the final `/`-separated component. -/
def setFileName (path name : String) : String :=
  ⟨joinChar '/' ((splitOnChar '/' path.data).dropLast ++ [name.data])⟩

/-- Embedding of `Annotation::from_file` (src/pascal_voc/parser.rs lines 39-47), with the
filesystem (`fs::read_to_string`) and the XML decoder (`quick_xml::de`) as
oracle parameters; `Result` errors are collapsed into `none`. After decoding,
`system_path` is set to the source XML path with its file name replaced by the
annotation's `filename` field. -/
def Annot.from_file (read_to_string : String → Option String)
    (deserialize : String → Option Annot) (path : String) :
    Option Annot :=
  match read_to_string path with
  | none => none
  | some content =>
    match deserialize content with
    | none => none
    | some ex => some { ex with system_path := setFileName path ex.filename }

/-! ## `RecordBuilder` (src/pascal_voc/tfrecord.rs) -/

/-- Rust `Path::extension()`: the part of the final component after the last
`.`; `none` when the final component has no `.` or consists of a single
leading-dot hidden name. -/
def pathExtension (path : String) : Option String :=
  let fname := (splitOnChar '/' path.data).getLastD []
  let parts := splitOnChar '.' fname
  if parts.length < 2 then none
  else if parts.headD [] = [] ∧ parts.length = 2 then none
  else some ⟨parts.getLastD []⟩

/-- The extension filter at the top of `add_example` (tfrecord.rs lines 55-62):
keep the (original-case) extension when it lowercases to png/jpg/jpeg. -/
def acceptedExt (path : String) : Option String :=
  (pathExtension path).bind (fun ext =>
    let lower : List Char := ext.data.map Char.toLower
    if lower = "png".data ∨ lower = "jpg".data ∨ lower = "jpeg".data
    then some ext else none)

/-- The feature buffer of `RecordBuilder`. The source declares
`features: Vec<BuilderFeatures>` but `add_example` pushes field-wise
(`features.classes.push(...)`, `features.height.push(...)`, ...); this
embedding mirrors those field-wise pushes as a struct of lists. Note the
source pushes the height and then the WIDTH into the `height` field
(tfrecord.rs lines 92-93) and never pushes into `width`. -/
structure BuilderBuffer where
  height : List Int
  width : List Int
  filename : List String
  image_bytes : List Bytes
  image_format : List String
  xmins : List (List Rat)
  xmaxs : List (List Rat)
  ymins : List (List Rat)
  ymaxs : List (List Rat)
  classes : List (List Int)
  classes_text : List (List String)
deriving DecidableEq

/-- The empty feature buffer (`Default`). -/
def BuilderBuffer.empty : BuilderBuffer := ⟨[], [], [], [], [], [], [], [], [], [], []⟩

/-- The `RecordBuilder` state (tfrecord.rs lines 12-26). -/
structure RecordBuilder where
  label_map : LabelMap
  max_size : Nat
  current_size : Nat
  current_chunk : Nat
  ignored : List String
  features : BuilderBuffer
deriving DecidableEq

/-- Embedding of `RecordBuilder::new`. -/
def RecordBuilder.new (max_size : Nat) (label_map : LabelMap) : RecordBuilder :=
  ⟨label_map, max_size, 0, 0, [], BuilderBuffer.empty⟩

/-- Embedding of `map_labels` (tfrecord.rs lines 106-112): map every object's label to its
registry id; `some` only if every lookup succeeds. -/
def map_labels (input : Annot) (label_map : LabelMap) : Option (List Int) :=
  input.objects.mapM (fun object => label_map.get object.name)

/-- Embedding of `get_normalized_coordinates` (tfrecord.rs lines 115-132): the tuple is
(xmins, xmaxs, ymins, ymaxs), x against width and y against height. -/
def get_normalized_coordinates (input : Annot) :
    List Rat × List Rat × List Rat × List Rat :=
  let width : Rat := (input.size.width : Rat)
  let height : Rat := (input.size.height : Rat)
  (input.objects.map (fun o => normalize (o.bndbox.xmin : Rat) 0 width),
   input.objects.map (fun o => normalize (o.bndbox.xmax : Rat) 0 width),
   input.objects.map (fun o => normalize (o.bndbox.ymin : Rat) 0 height),
   input.objects.map (fun o => normalize (o.bndbox.ymax : Rat) 0 height))

/-- Embedding of `RecordBuilder::add_example` (tfrecord.rs lines 54-102), with `fs::read`
as an oracle parameter (`none` models a read failure). The source names the
annotation parameter `example` (a reserved word here, so `ex`). The extension
filter and the file read both consult `ex.path` (the declared path stored in
the XML), exactly as the source does. On any failure the example's path is
pushed to `ignored` and nothing else changes. -/
def RecordBuilder.add_example (fs : String → Option Bytes)
    (self : RecordBuilder) (ex : Annot) : RecordBuilder :=
  match acceptedExt ex.path, fs ex.path with
  | some ext, some bytes =>
    -- Map labels first, keep track of failures and bail
    match map_labels ex self.label_map with
    | none => { self with ignored := self.ignored ++ [ex.path] }
    | some mapped_labels =>
      let coords := get_normalized_coordinates ex
      { self with
        current_size := self.current_size + bytes.length,
        features := { self.features with
          classes := self.features.classes ++ [mapped_labels],
          xmins := self.features.xmins ++ [coords.1],
          xmaxs := self.features.xmaxs ++ [coords.2.1],
          ymins := self.features.ymins ++ [coords.2.2.1],
          ymaxs := self.features.ymaxs ++ [coords.2.2.2],
          classes_text := self.features.classes_text ++
            [ex.objects.map (fun o => o.name)],
          height := self.features.height ++
            [(ex.size.height : Int), (ex.size.width : Int)],
          filename := self.features.filename ++ [ex.filename],
          image_bytes := self.features.image_bytes ++ [bytes],
          image_format := self.features.image_format ++ [ext] } }
  | _, _ => { self with ignored := self.ignored ++ [ex.path] }

/-- Fold `add_example` over a list of annotations (the call pattern of
`gen_tfrecord` in prepare.rs line 111). -/
def RecordBuilder.addExamples (fs : String → Option Bytes)
    (self : RecordBuilder) (examples : List Annot) : RecordBuilder :=
  examples.foldl (fun acc e => acc.add_example fs e) self

/-! ## `From<BuilderFeatures> for Example` (tfrecord.rs lines 135-160)

A TensorFlow `Feature` is a tagged union of exactly three list variants; an
`Example`'s feature map is modelled as the association list of the inserts
performed by the source (all inserted keys are distinct). Strings are carried
as their character-code bytes. -/

/-- The three-variant TensorFlow `Feature` value. -/
inductive Feature where
  | int64List (values : List Int)
  | floatList (values : List Rat)
  | bytesList (values : List Bytes)
deriving DecidableEq

/-- String to bytes (character codes; coincides with UTF-8 on ASCII content,
which is all the schema's fixed names and labels use). -/
def strBytes (s : String) : Bytes := s.data.map Char.toNat

/-- Embedding of `insert_feature` (tfrecord.rs lines 163-166): HashMap insert, modelled as
append (every key inserted by the source is distinct). -/
def insert_feature (map : List (String × Feature)) (attr : String)
    (value : Feature) : List (String × Feature) :=
  map ++ [(attr, value)]

/-- The per-example `BuilderFeatures` struct as declared
(tfrecord.rs lines 28-42). -/
structure BuilderFeatures where
  height : Int
  width : Int
  filename : String
  image_bytes : Bytes
  image_format : String
  xmins : List Rat
  xmaxs : List Rat
  ymins : List Rat
  ymaxs : List Rat
  classes : List Int
  classes_text : List String
deriving DecidableEq

/-- Embedding of `From<BuilderFeatures> for Example` (tfrecord.rs lines 135-160),
faithfully: the source inserts `image/height`, `image/width`,
`image/filename`, `image/source_id`, `image/encoded`, `image/format` and
`image/object/bbox/xmin`, then stops (the remaining bbox lists and the class
lists of `BuilderFeatures` are never inserted). -/
def exampleFrom (builder : BuilderFeatures) : List (String × Feature) :=
  let m := insert_feature [] ("image/height") (Feature.int64List [builder.height])
  let m := insert_feature m ("image/width") (Feature.int64List [builder.width])
  let source_id := builder.filename
  let m := insert_feature m ("image/filename")
    (Feature.bytesList [strBytes builder.filename])
  let m := insert_feature m ("image/source_id")
    (Feature.bytesList [strBytes source_id])
  let m := insert_feature m ("image/encoded")
    (Feature.bytesList [builder.image_bytes])
  let m := insert_feature m ("image/format")
    (Feature.bytesList [strBytes builder.image_format])
  let m := insert_feature m ("image/object/bbox/xmin")
    (Feature.floatList builder.xmins)
  m

/-! ## `math::retain` and `split_dataset` (src/pascal_voc/features/prepare.rs) -/

/-- Modelled from the spec: `math::retain` is called by
`split_dataset` (prepare.rs line 74) but its body is absent from the sources
(src/math.rs only defines `normalize` and `split`). Spec §4.1: ratio is
clamped to [0,100]; IEEE CRC-32 over the bytes;
`threshold = round((ratio/100) × 0xFFFFFFFF)`; returns `checksum < threshold`.
The rounding is modelled exactly as in `splitThreshold`. -/
def retain (bytes : Bytes) (ratio : Nat) : Bool :=
  let clamped := min ratio 100
  let threshold := (2 * clamped * 4294967295 + 100) / 200
  decide (checksum_ieee bytes < threshold)

/-- Embedding of `split_dataset` (prepare.rs lines 71-77): partition the annotations with
`fs::read(&annotation.system_path).map(|b| retain(b, ratio)).unwrap_or(false)`;
the tuple structure is (test, train). -/
def split_dataset (fs : String → Option Bytes) (input : List Annot)
    (ratio : Nat) : List Annot × List Annot :=
  input.partition (fun ann =>
    ((fs ann.system_path).map (fun bytes => retain bytes ratio)).getD false)

/-! ## TFRecord framing

`RecordBuilder::write_tfrecord` is called by prepare.rs (line 116) and mod.rs
but its body is absent from the sources; the frame format is modelled from
spec §4.4. -/

/-- Little-endian byte encoding of `value` on `n` bytes. -/
def leBytes : Nat → Nat → Bytes
  | 0, _ => []
  | n + 1, value => value % 256 :: leBytes n (value / 256)

/-- Little-endian decoding of a byte list. -/
def leDecode (bytes : Bytes) : Nat :=
  bytes.foldr (fun b acc => acc * 256 + b) 0

/-- Modelled from the spec: the TFRecord CRC mask,
`masked = (((crc >> 15) | (crc << 17)) + 0xA282EAD8) mod 2^32` with the shifts
taken at width 32. -/
def maskCrc (crc : Nat) : Nat :=
  (((crc >>> 15) ||| ((crc <<< 17) % 4294967296)) + 0xA282EAD8) % 4294967296

/-- Modelled from the spec: one TFRecord frame (spec §4.4) —
8 little-endian length bytes, 4 little-endian bytes of the masked CRC-32C of
those length bytes, the payload, then 4 little-endian bytes of the masked
CRC-32C of the payload. -/
def frame (payload : Bytes) : Bytes :=
  let lengthBytes := leBytes 8 payload.length
  lengthBytes
    ++ leBytes 4 (maskCrc (checksum_castagnoli lengthBytes))
    ++ payload
    ++ leBytes 4 (maskCrc (checksum_castagnoli payload))

/-- Modelled from the spec: the output stream is the frames concatenated with
no separators and no footer. -/
def tfrecordStream (payloads : List Bytes) : Bytes :=
  (payloads.map frame).flatten

/-- Modelled from the spec: frame parser (spec §8 frame round-trip property).
Reads the 8 length bytes, verifies the masked CRC-32C of the length bytes,
extracts the payload, verifies its masked CRC-32C, and returns the payload and
the remaining stream. -/
def parseFrame (stream : Bytes) : Option (Bytes × Bytes) :=
  if stream.length < 8 then none
  else
    let lenBytes := stream.take 8
    let len := leDecode lenBytes
    let rest1 := stream.drop 8
    if rest1.length < 4 then none
    else if rest1.take 4 ≠ leBytes 4 (maskCrc (checksum_castagnoli lenBytes)) then none
    else
      let rest2 := rest1.drop 4
      if rest2.length < len then none
      else
        let payload := rest2.take len
        let rest3 := rest2.drop len
        if rest3.length < 4 then none
        else if rest3.take 4 ≠ leBytes 4 (maskCrc (checksum_castagnoli payload)) then none
        else some (payload, rest3.drop 4)

/-! ## Helper lemmas -/

set_option maxRecDepth 100000

theorem lookup_eq_none_iff (l : List (String × Int)) (k : String) :
    l.lookup k = none ↔ k ∉ l.map Prod.fst := by
  induction l with
  | nil => simp
  | cons hd tl ih =>
    obtain ⟨a, b⟩ := hd
    by_cases h : k = a
    · subst h
      simp [List.lookup]
    · have hba : (k == a) = false := beq_eq_false_iff_ne.mpr h
      simp [List.lookup, hba, ih, h]

theorem lookup_append_some (l l' : List (String × Int)) (k : String) (v : Int)
    (h : l.lookup k = some v) : (l ++ l').lookup k = some v := by
  induction l with
  | nil => simp [List.lookup] at h
  | cons hd tl ih =>
    obtain ⟨a, b⟩ := hd
    cases hba : (k == a) with
    | true =>
      simp [List.lookup, hba] at h ⊢
      exact h
    | false =>
      simp [List.lookup, hba] at h ⊢
      exact ih h

theorem mapM_eq_none_of_mem_none {α β : Type} (f : α → Option β) (l : List α)
    (h : ∃ x ∈ l, f x = none) : l.mapM f = none := by
  induction l with
  | nil => simp at h
  | cons hd tl ih =>
    rw [List.mapM_cons]
    obtain ⟨x, hx, hfx⟩ := h
    rcases List.mem_cons.mp hx with hx | hx
    · subst hx
      rw [hfx]
      rfl
    · have htl := ih ⟨x, hx, hfx⟩
      rw [htl]
      cases f hd <;> rfl

theorem length_filter_add_length_filter_not {α : Type} (l : List α) (p : α → Bool) :
    (l.filter p).length + (l.filter (fun a => !(p a))).length = l.length := by
  induction l with
  | nil => rfl
  | cons hd tl ih => cases h : p hd <;> simp [List.filter_cons, h] <;> omega

/-- The Rust `split` loop is a filter pair: `crc ≥ threshold` elements in
input order on the left, `crc < threshold` elements in input order on the
right. -/
theorem split_eq_filters (input : List Bytes) (r : Nat) :
    split input r =
      (input.filter (fun e => decide (splitThreshold r ≤ checksum_ieee e)),
       input.filter (fun e => decide (checksum_ieee e < splitThreshold r))) := by
  unfold split
  rw [List.partition_eq_filter_filter]
  congr 1
  apply List.filter_congr
  intro x _
  simp only [Function.comp, ← decide_not, decide_eq_decide]
  omega

/-! ## Claims about `math::split` and `math::retain` -/

/-- C3 counterexample: the claim says an item whose IEEE CRC-32 is `≥` the
threshold goes to the RIGHT output set. With ratio 0 the threshold is 0, so
every checksum is `≥` it, yet `split [[49]] 0` leaves the right set empty and
puts the item on the left. -/
theorem split_counterexample_direction :
    splitThreshold 0 ≤ checksum_ieee [49]
    ∧ (split [[49]] 0).2 = []
    ∧ [49] ∈ (split [[49]] 0).1 := by decide

/-- C3 (amended): in `split(items, rightRatio)`, each item is placed in the
LEFT output set if the IEEE CRC-32 checksum of its byte representation is `≥`
the threshold `round((rightRatio/100) × 0xFFFFFFFF)`, and in the RIGHT output
set otherwise (the reverse of the claimed directions). -/
theorem split_places_high_checksums_left (input : List Bytes) (right_ratio : Nat) :
    split input right_ratio =
      (input.filter (fun e => decide (splitThreshold right_ratio ≤ checksum_ieee e)),
       input.filter (fun e => decide (checksum_ieee e < splitThreshold right_ratio))) :=
  split_eq_filters input right_ratio

/-- C5: `split` is a complete, order-preserving partition: the output lengths
sum to the input length, every input element lands in exactly one side (also
counted with multiplicity), and each side is a subsequence of the input. -/
theorem split_is_complete_partition (input : List Bytes) (right_ratio : Nat) :
    (split input right_ratio).1.length + (split input right_ratio).2.length
        = input.length
    ∧ (∀ x, x ∈ input ↔ (x ∈ (split input right_ratio).1
        ∨ x ∈ (split input right_ratio).2))
    ∧ (∀ x, ¬(x ∈ (split input right_ratio).1 ∧ x ∈ (split input right_ratio).2))
    ∧ (∀ x, (split input right_ratio).1.count x + (split input right_ratio).2.count x
        = input.count x)
    ∧ (split input right_ratio).1.Sublist input
    ∧ (split input right_ratio).2.Sublist input := by
  rw [split_eq_filters]
  refine ⟨?_, ?_, ?_, ?_, List.filter_sublist input, List.filter_sublist input⟩
  · have h := length_filter_add_length_filter_not input
      (fun e => decide (splitThreshold right_ratio ≤ checksum_ieee e))
    have hq : input.filter (fun e => decide (checksum_ieee e < splitThreshold right_ratio))
        = input.filter
            (fun a => !(decide (splitThreshold right_ratio ≤ checksum_ieee a))) := by
      apply List.filter_congr
      intro x _
      simp only [← decide_not, decide_eq_decide]
      omega
    simpa [hq] using h
  · intro x
    constructor
    · intro hx
      by_cases hc : splitThreshold right_ratio ≤ checksum_ieee x
      · exact Or.inl (List.mem_filter.mpr ⟨hx, by simpa using hc⟩)
      · exact Or.inr (List.mem_filter.mpr ⟨hx, by simpa using Nat.lt_of_not_le hc⟩)
    · rintro (hx | hx) <;> exact (List.mem_filter.mp hx).1
  · rintro x ⟨hl, hr⟩
    have h1 := (List.mem_filter.mp hl).2
    have h2 := (List.mem_filter.mp hr).2
    simp at h1 h2
    omega
  · intro x
    by_cases hc : splitThreshold right_ratio ≤ checksum_ieee x
    · have h1 : (input.filter
            (fun e => decide (splitThreshold right_ratio ≤ checksum_ieee e))).count x
          = input.count x := List.count_filter (by simpa using hc)
      have h2 : (input.filter
            (fun e => decide (checksum_ieee e < splitThreshold right_ratio))).count x
          = 0 := by
        rw [List.count_eq_zero]
        intro hmem
        have := (List.mem_filter.mp hmem).2
        simp at this
        omega
      simp [h1, h2]
    · have h1 : (input.filter
            (fun e => decide (splitThreshold right_ratio ≤ checksum_ieee e))).count x
          = 0 := by
        rw [List.count_eq_zero]
        intro hmem
        have := (List.mem_filter.mp hmem).2
        simp at this
        omega
      have h2 : (input.filter
            (fun e => decide (checksum_ieee e < splitThreshold right_ratio))).count x
          = input.count x := List.count_filter (by simpa using Nat.lt_of_not_le hc)
      simp [h1, h2]

/-! ## The CRC register stays below 2^32 -/

theorem crcBitStep_lt (poly r : Nat) (hp : poly < 2 ^ 32) (hr : r < 2 ^ 32) :
    crcBitStep poly r < 2 ^ 32 := by
  unfold crcBitStep
  split
  · exact Nat.xor_lt_two_pow (by omega) hp
  · omega

theorem crcByteStep_lt (poly r b : Nat) (hp : poly < 2 ^ 32) (hr : r < 2 ^ 32)
    (hb : b < 2 ^ 32) : crcByteStep poly r b < 2 ^ 32 := by
  unfold crcByteStep
  have h0 : r ^^^ b < 2 ^ 32 := Nat.xor_lt_two_pow hr hb
  have hgen : ∀ (l : List Nat) (s : Nat), s < 2 ^ 32 →
      (l.foldl (fun acc _ => crcBitStep poly acc) s) < 2 ^ 32 := by
    intro l
    induction l with
    | nil => intro s hs; simpa
    | cons hd tl ih => intro s hs; exact ih _ (crcBitStep_lt poly s hp hs)
  exact hgen _ _ h0

theorem crcFold_lt (poly : Nat) (hp : poly < 2 ^ 32) :
    ∀ (bytes : Bytes) (s : Nat), s < 2 ^ 32 → (∀ b ∈ bytes, b < 256) →
      (bytes.foldl (fun r b => crcByteStep poly r b) s) < 2 ^ 32 := by
  intro bytes
  induction bytes with
  | nil => intro s hs _; simpa
  | cons hd tl ih =>
    intro s hs hb
    apply ih
    · exact crcByteStep_lt poly s hd hp hs
        (lt_trans (hb hd (List.mem_cons_self hd tl)) (by norm_num))
    · intro b hbm
      exact hb b (List.mem_cons_of_mem hd hbm)

theorem checksum_ieee_lt (bytes : Bytes) (hb : ∀ b ∈ bytes, b < 256) :
    checksum_ieee bytes < 2 ^ 32 := by
  unfold checksum_ieee crcRun
  exact Nat.xor_lt_two_pow
    (crcFold_lt 0xEDB88320 (by norm_num) bytes 0xFFFFFFFF (by norm_num) hb)
    (by norm_num)

/-! ## Claims about `LabelMap` -/

/-- C1: `LabelMap::add` on an already-present label. The map is indeed left
unchanged, but the returned value is the NEXT counter (`self.index`), not the
id previously stored for the label: from a fresh map, the first `add("dog")`
returns 1 and stores id 1, while the second `add("dog")` returns 2 even though
`get("dog") = 1`. This contradicts the function's own doc comment
("Always returns the correct ID for a given label"). -/
theorem add_returns_counter_not_stored_id :
    (LabelMap.new.add ("dog")).1 = 1
    ∧ (LabelMap.new.add ("dog")).2.get ("dog") = some 1
    ∧ ((LabelMap.new.add ("dog")).2.add ("dog")).1 = 2
    ∧ ((LabelMap.new.add ("dog")).2.add ("dog")).2 = (LabelMap.new.add ("dog")).2 := by
  decide

/-- The id sequence 1,2,…,n (as `Int`). -/
def idList (n : Nat) : List Int := (List.range n).map (fun i => Int.ofNat (i + 1))

theorem idList_succ (n : Nat) : idList (n + 1) = idList n ++ [Int.ofNat (n + 1)] := by
  unfold idList
  rw [List.range_succ, List.map_append]
  rfl

/-- The registry invariant: ids along the (first-seen ordered) association
list are exactly 1,2,3,… and the counter sits one past the last id. -/
def LabelMap.Wf (m : LabelMap) : Prop :=
  m.map.map Prod.snd = idList m.map.length
  ∧ m.index = Int.ofNat (m.map.length + 1)

theorem wf_add (m : LabelMap) (l : String) (h : m.Wf) : ((m.add l).2).Wf := by
  obtain ⟨h1, h2⟩ := h
  unfold LabelMap.add
  by_cases hl : m.map.lookup l = none
  · simp only [hl, if_pos]
    constructor
    · show (m.map ++ [(l, m.index)]).map Prod.snd
        = idList (m.map ++ [(l, m.index)]).length
      rw [List.map_append, h1, List.length_append, List.length_singleton,
        idList_succ]
      simp [h2]
    · show m.index + 1 = Int.ofNat ((m.map ++ [(l, m.index)]).length + 1)
      rw [h2, List.length_append, List.length_singleton]
      simp [Int.ofNat_succ]
  · simp only [hl, if_neg, ite_false]
    exact ⟨h1, h2⟩

theorem wf_addAll (ls : List String) (m : LabelMap) (h : m.Wf) :
    (m.addAll ls).Wf := by
  induction ls generalizing m with
  | nil => exact h
  | cons hd tl ih => exact ih _ (wf_add m hd h)

theorem keys_add (m : LabelMap) (l : String) :
    ((m.add l).2).map.map Prod.fst =
      (if l ∈ m.map.map Prod.fst then m.map.map Prod.fst
       else m.map.map Prod.fst ++ [l]) := by
  by_cases hmem : l ∈ m.map.map Prod.fst
  · have hne : ¬(m.map.lookup l = none) := by
      rw [lookup_eq_none_iff]
      exact not_not_intro hmem
    simp [LabelMap.add, hne, hmem]
  · have heq : m.map.lookup l = none := (lookup_eq_none_iff _ _).mpr hmem
    simp [LabelMap.add, heq, hmem]

theorem keys_addAll (ls : List String) (m : LabelMap) :
    ((m.addAll ls)).map.map Prod.fst =
      ls.foldl (fun acc l => if l ∈ acc then acc else acc ++ [l])
        (m.map.map Prod.fst) := by
  induction ls generalizing m with
  | nil => rfl
  | cons hd tl ih =>
    show ((((m.add hd).2).addAll tl)).map.map Prod.fst = _
    rw [ih, keys_add, List.foldl_cons]

theorem get_add_stable (m : LabelMap) (l l' : String) (i : Int)
    (h : m.get l = some i) : ((m.add l').2).get l = some i := by
  unfold LabelMap.get at h ⊢
  unfold LabelMap.add
  by_cases hl : m.map.lookup l' = none
  · simp only [hl, if_pos]
    exact lookup_append_some _ _ _ _ h
  · simp only [hl, if_neg, ite_false]
    exact h

theorem get_addAll_stable (ls : List String) (m : LabelMap) (l : String) (i : Int)
    (h : m.get l = some i) : ((m.addAll ls)).get l = some i := by
  induction ls generalizing m with
  | nil => exact h
  | cons hd tl ih => exact ih _ (get_add_stable m l hd i h)

/-- C4: in every `LabelMap` reachable from `new()` by a sequence of `add`
calls, distinct labels hold distinct ids; the stored keys are the labels in
first-seen order; the ids along the map are exactly 1,2,3,…; and an id, once
stored for a label, survives any later sequence of `add` calls. -/
theorem labelMap_ids_unique_ordered_stable (ls ls' : List String)
    (p q : String × Int) (label : String) (i : Int)
    (hp : p ∈ (LabelMap.new.addAll ls).map)
    (hq : q ∈ (LabelMap.new.addAll ls).map)
    (hpq : p.1 ≠ q.1)
    (hget : (LabelMap.new.addAll ls).get label = some i) :
    p.2 ≠ q.2
    ∧ (LabelMap.new.addAll ls).map.map Prod.fst = firstSeen ls
    ∧ (LabelMap.new.addAll ls).map.map Prod.snd
        = idList (LabelMap.new.addAll ls).map.length
    ∧ ((LabelMap.new.addAll ls).addAll ls').get label = some i := by
  have hwf : (LabelMap.new.addAll ls).Wf := wf_addAll ls LabelMap.new ⟨rfl, rfl⟩
  refine ⟨?_, ?_, hwf.1, get_addAll_stable ls' _ label i hget⟩
  · intro hsnd
    have hinj : Function.Injective (fun i : Nat => Int.ofNat (i + 1)) := by
      intro a b hab
      simpa using hab
    have hnodup : ((LabelMap.new.addAll ls).map.map Prod.snd).Nodup := by
      rw [hwf.1]
      exact ((List.nodup_range _).map hinj : (idList _).Nodup)
    exact hpq (congrArg Prod.fst (List.inj_on_of_nodup_map hnodup hp hq hsnd))
  · rw [keys_addAll]
    rfl

/-- C4 witness: after adding "dog", "cat", "dog", the map is
[("dog",1), ("cat",2)] in first-seen order, and the id of "dog" survives a
later `add "bird"`. -/
theorem labelMap_ids_unique_ordered_stable_witness :
    (("dog", (1 : Int)) ∈ (LabelMap.new.addAll ["dog", "cat", "dog"]).map
      ∧ ("cat", (2 : Int)) ∈ (LabelMap.new.addAll ["dog", "cat", "dog"]).map
      ∧ (("dog", (1 : Int)) : String × Int).1 ≠ (("cat", (2 : Int)) : String × Int).1
      ∧ (LabelMap.new.addAll ["dog", "cat", "dog"]).get ("dog") = some 1)
    ∧ ((("dog", (1 : Int)) : String × Int).2 ≠ (("cat", (2 : Int)) : String × Int).2
      ∧ (LabelMap.new.addAll ["dog", "cat", "dog"]).map.map Prod.fst
          = firstSeen ["dog", "cat", "dog"]
      ∧ (LabelMap.new.addAll ["dog", "cat", "dog"]).map.map Prod.snd
          = idList (LabelMap.new.addAll ["dog", "cat", "dog"]).map.length
      ∧ ((LabelMap.new.addAll ["dog", "cat", "dog"]).addAll ["bird"]).get ("dog")
          = some 1) :=
  ⟨⟨by decide, by decide, by decide, by decide⟩,
    labelMap_ids_unique_ordered_stable ["dog", "cat", "dog"] ["bird"]
      ("dog", 1) ("cat", 2) "dog" 1 (by decide) (by decide) (by decide) (by decide)⟩

/-! ## Claims about `math::retain` (modelled from the spec) -/

/-- C7 counterexample: the content [255,255,255,255] has IEEE CRC-32 checksum
0xFFFFFFFF, equal to the ratio-100 threshold, so `retain(x, 100)` is FALSE for
it, refuting "retain(x,100) is true for all content". -/
theorem retain_100_false_on_max_checksum :
    checksum_ieee [255, 255, 255, 255] = 4294967295
    ∧ retain [255, 255, 255, 255] 100 = false := by decide

/-- C7 (amended): `retain` clamps the ratio to [0,100] and compares the IEEE
CRC-32 of the content against `round((ratio/100) × 0xFFFFFFFF)`, purely as a
function of content. For EVERY content (no hypothesis), `retain(x,0)` is false
(so in particular for every content whose checksum ≠ 0) and the ratio is
clamped; `retain(x,100)` is true for every byte content whose checksum is not
0xFFFFFFFF (the threshold itself) — the sole part the counterexample forces
to be weakened. -/
theorem retain_clamps_and_thresholds (bytes : Bytes) (ratio : Nat) :
    retain bytes 0 = false
    ∧ retain bytes ratio = retain bytes (min ratio 100)
    ∧ ((∀ b ∈ bytes, b < 256) → checksum_ieee bytes ≠ 4294967295 →
        retain bytes 100 = true) := by
  refine ⟨?_, ?_, ?_⟩
  · simp [retain]
  · simp only [retain]
    rw [Nat.min_assoc, Nat.min_self]
  · intro hbytes hmax
    have hlt : checksum_ieee bytes < 2 ^ 32 := checksum_ieee_lt bytes hbytes
    simp only [retain, decide_eq_true_eq]
    norm_num
    omega

/-- C7 witness: the single byte [49] has checksum 0x83DCEFB7 ≠ 0xFFFFFFFF,
discharging the hypotheses of the retain-100 conjunct. -/
theorem retain_clamps_and_thresholds_witness :
    ((∀ b ∈ ([49] : Bytes), b < 256) ∧ checksum_ieee [49] ≠ 4294967295)
    ∧ (retain [49] 0 = false
        ∧ retain [49] 150 = retain [49] (min 150 100)
        ∧ retain [49] 100 = true) :=
  ⟨⟨by decide, by decide⟩,
    ⟨(retain_clamps_and_thresholds [49] 150).1,
      (retain_clamps_and_thresholds [49] 150).2.1,
      (retain_clamps_and_thresholds [49] 150).2.2 (by decide) (by decide)⟩⟩

/-! ## Claims about the serialized `Example` attribute table -/

/-- C2: the `From<BuilderFeatures> for Example` conversion emits ONLY the
seven attributes `image/height`, `image/width`, `image/filename`,
`image/source_id`, `image/encoded`, `image/format` and
`image/object/bbox/xmin`; the remaining bounding-box lists
(`xmax`/`ymin`/`ymax`) and the class id/text lists required by the schema are
never inserted, for every input `BuilderFeatures`. -/
theorem exampleFrom_omits_required_attributes (b : BuilderFeatures) :
    (exampleFrom b).map Prod.fst =
      ["image/height", "image/width", "image/filename", "image/source_id",
       "image/encoded", "image/format", "image/object/bbox/xmin"]
    ∧ "image/object/bbox/xmax" ∉ (exampleFrom b).map Prod.fst
    ∧ "image/object/bbox/ymin" ∉ (exampleFrom b).map Prod.fst
    ∧ "image/object/bbox/ymax" ∉ (exampleFrom b).map Prod.fst
    ∧ "image/object/class/label" ∉ (exampleFrom b).map Prod.fst
    ∧ "image/object/class/text" ∉ (exampleFrom b).map Prod.fst := by
  have hkeys : (exampleFrom b).map Prod.fst =
      ["image/height", "image/width", "image/filename", "image/source_id",
       "image/encoded", "image/format", "image/object/bbox/xmin"] := rfl
  refine ⟨hkeys, ?_, ?_, ?_, ?_, ?_⟩ <;> rw [hkeys] <;> decide

/-! ## Claims about `RecordBuilder::add_example` and `split_dataset` -/

/-- A concrete labelled object, used to instantiate the claims. -/
def dogObject : Object := ⟨"dog", "Unspecified", true, false, ⟨85, 1, 381, 244⟩⟩

/-- A concrete annotation: its XML sits at `./dataset/1.xml`; the labeler's
declared `path` is `/labeler/pics/1.jpg`; the resolved `system_path` (same
directory as the XML, named by the `filename` field) is `./dataset/1.jpg`. -/
def sampleAnnot : Annot :=
  ⟨"dataset", "1.jpg", "/labeler/pics/1.jpg", "./dataset/1.jpg",
   ⟨none, none, none⟩, ⟨480, 360, 3⟩, false, [dogObject]⟩

/-- The annotation `sampleAnnot` before `from_file` fills in `system_path`. -/
def rawSampleAnnot : Annot :=
  { sampleAnnot with system_path := "" }

/-- A registry that already contains "dog". -/
def dogLabelMap : LabelMap := (LabelMap.new.add ("dog")).2

/-- C8: the image bytes stored by `add_example` are read from the
annotation's DECLARED `path` field, not from the resolved `system_path`.
With a filesystem holding [1,2,3] at the declared path and [7,7] at the
resolved path (which `from_file` indeed sets to the XML's directory plus the
`filename` field), the record stores [1,2,3]; and when only the resolved path
is readable, the example is dropped into `ignored` even though its image sits
beside the annotation. -/
theorem add_example_reads_declared_path_not_system_path :
    (RecordBuilder.add_example
        (fun p => if p = "/labeler/pics/1.jpg" then some [1, 2, 3]
          else if p = "./dataset/1.jpg" then some [7, 7] else none)
        (RecordBuilder.new 0 dogLabelMap) sampleAnnot).features.image_bytes
      = [[1, 2, 3]]
    ∧ (fun p => if p = "/labeler/pics/1.jpg" then some [1, 2, 3]
          else if p = "./dataset/1.jpg" then some [7, 7] else none)
        sampleAnnot.system_path = some [7, 7]
    ∧ (RecordBuilder.add_example
        (fun p => if p = "./dataset/1.jpg" then some [7, 7] else none)
        (RecordBuilder.new 0 dogLabelMap) sampleAnnot).ignored
      = ["/labeler/pics/1.jpg"]
    ∧ Annot.from_file
        (fun p => if p = "./dataset/1.xml" then some ("<annotation/>") else none)
        (fun c => if c = "<annotation/>" then some rawSampleAnnot else none)
        "./dataset/1.xml"
      = some sampleAnnot := by
  refine ⟨by decide, by decide, by decide, ?_⟩
  show some { rawSampleAnnot with
      system_path := setFileName ("./dataset/1.xml") rawSampleAnnot.filename }
    = some sampleAnnot
  decide

/-- C9: if the extension filter and the file read succeed but some object's
label is absent from the registry, `add_example` drops the whole example: the
result is the input builder with ONLY `ignored` extended by the example's
path (feature buffer untouched, no field partially appended), and folding the
remaining examples continues from that state. -/
theorem add_example_drops_example_on_missing_label
    (fs : String → Option Bytes) (self : RecordBuilder) (ex : Annot)
    (rest : List Annot) (ext : String) (bytes : Bytes)
    (hext : acceptedExt ex.path = some ext)
    (hread : fs ex.path = some bytes)
    (hmiss : ∃ o ∈ ex.objects, self.label_map.get o.name = none) :
    self.add_example fs ex = { self with ignored := self.ignored ++ [ex.path] }
    ∧ self.addExamples fs (ex :: rest)
        = RecordBuilder.addExamples fs
            { self with ignored := self.ignored ++ [ex.path] } rest := by
  have hml : map_labels ex self.label_map = none :=
    mapM_eq_none_of_mem_none _ _ hmiss
  have h1 : self.add_example fs ex
      = { self with ignored := self.ignored ++ [ex.path] } := by
    simp only [RecordBuilder.add_example, hext, hread, hml]
  refine ⟨h1, ?_⟩
  show RecordBuilder.addExamples fs self (ex :: rest) = _
  simp only [RecordBuilder.addExamples, List.foldl_cons]
  rw [h1]

/-- C9 witness: an empty registry, an annotation with one "dog" object, a
readable declared path. -/
theorem add_example_drops_example_on_missing_label_witness :
    (acceptedExt sampleAnnot.path = some ("jpg")
      ∧ (fun p => if p = "/labeler/pics/1.jpg" then some [9] else none)
          sampleAnnot.path = some ([9] : Bytes)
      ∧ (∃ o ∈ sampleAnnot.objects,
          (RecordBuilder.new 0 LabelMap.new).label_map.get o.name = none))
    ∧ ((RecordBuilder.new 0 LabelMap.new).add_example
          (fun p => if p = "/labeler/pics/1.jpg" then some [9] else none)
          sampleAnnot
        = { RecordBuilder.new 0 LabelMap.new with
            ignored := (RecordBuilder.new 0 LabelMap.new).ignored
              ++ [sampleAnnot.path] }
      ∧ (RecordBuilder.new 0 LabelMap.new).addExamples
          (fun p => if p = "/labeler/pics/1.jpg" then some [9] else none)
          (sampleAnnot :: [])
        = RecordBuilder.addExamples
            (fun p => if p = "/labeler/pics/1.jpg" then some [9] else none)
            { RecordBuilder.new 0 LabelMap.new with
              ignored := (RecordBuilder.new 0 LabelMap.new).ignored
                ++ [sampleAnnot.path] } []) :=
  ⟨⟨by decide, by decide, by decide⟩,
    add_example_drops_example_on_missing_label
      (fun p => if p = "/labeler/pics/1.jpg" then some [9] else none)
      (RecordBuilder.new 0 LabelMap.new) sampleAnnot [] "jpg" [9]
      (by decide) (by decide) (by decide)⟩

/-- C10: in `split_dataset`, an annotation whose `system_path` cannot be read
is placed in the train set (second component) — the predicate defaults to
`false` on a read failure — it never lands in the test set, and the partition
stays total over the input. -/
theorem split_dataset_read_failure_goes_to_train
    (fs : String → Option Bytes) (input : List Annot) (ratio : Nat)
    (a x : Annot) (ha : a ∈ input) (hfail : fs a.system_path = none) :
    a ∈ (split_dataset fs input ratio).2
    ∧ a ∉ (split_dataset fs input ratio).1
    ∧ (split_dataset fs input ratio).1.length
        + (split_dataset fs input ratio).2.length = input.length
    ∧ (x ∈ input ↔ (x ∈ (split_dataset fs input ratio).1
        ∨ x ∈ (split_dataset fs input ratio).2))
    ∧ ¬(x ∈ (split_dataset fs input ratio).1
        ∧ x ∈ (split_dataset fs input ratio).2) := by
  unfold split_dataset
  rw [List.partition_eq_filter_filter]
  refine ⟨?_, ?_, ?_, ?_, ?_⟩
  · exact List.mem_filter.mpr ⟨ha, by simp [Function.comp, hfail]⟩
  · intro hmem
    have h := (List.mem_filter.mp hmem).2
    rw [hfail] at h
    simp at h
  · exact length_filter_add_length_filter_not input _
  · constructor
    · intro hx
      by_cases hc : ((fs x.system_path).map (fun bytes => retain bytes ratio)).getD false
          = true
      · exact Or.inl (List.mem_filter.mpr ⟨hx, hc⟩)
      · refine Or.inr (List.mem_filter.mpr ⟨hx, ?_⟩)
        simp only [Bool.not_eq_true] at hc
        simp only [Function.comp_apply, Bool.not_eq_true']
        exact hc
    · rintro (hx | hx) <;> exact (List.mem_filter.mp hx).1
  · rintro ⟨h1, h2⟩
    have hb1 := (List.mem_filter.mp h1).2
    have hb2 := (List.mem_filter.mp h2).2
    simp only [Function.comp_apply, Bool.not_eq_true'] at hb2
    rw [hb1] at hb2
    simp at hb2

/-- C10 witness: a one-annotation corpus on a filesystem where nothing is
readable. -/
theorem split_dataset_read_failure_goes_to_train_witness :
    (sampleAnnot ∈ [sampleAnnot]
      ∧ (fun _ : String => (none : Option Bytes)) sampleAnnot.system_path = none)
    ∧ (sampleAnnot
        ∈ (split_dataset (fun _ => none) [sampleAnnot] 20).2
      ∧ sampleAnnot
          ∉ (split_dataset (fun _ => none) [sampleAnnot] 20).1
      ∧ (split_dataset (fun _ => none) [sampleAnnot] 20).1.length
          + (split_dataset (fun _ => none) [sampleAnnot] 20).2.length
          = [sampleAnnot].length
      ∧ (sampleAnnot ∈ [sampleAnnot]
          ↔ (sampleAnnot ∈ (split_dataset (fun _ => none) [sampleAnnot] 20).1
            ∨ sampleAnnot ∈ (split_dataset (fun _ => none) [sampleAnnot] 20).2))
      ∧ ¬(sampleAnnot ∈ (split_dataset (fun _ => none) [sampleAnnot] 20).1
          ∧ sampleAnnot ∈ (split_dataset (fun _ => none) [sampleAnnot] 20).2)) :=
  ⟨⟨by decide, rfl⟩,
    split_dataset_read_failure_goes_to_train (fun _ => none) [sampleAnnot] 20
      sampleAnnot sampleAnnot (by decide) rfl⟩

/-! ## Claims about the TFRecord frame format -/

theorem length_leBytes (n v : Nat) : (leBytes n v).length = n := by
  induction n generalizing v with
  | zero => rfl
  | succ k ih => simp [leBytes, ih]

theorem leDecode_cons (b : Nat) (bs : Bytes) :
    leDecode (b :: bs) = leDecode bs * 256 + b := rfl

theorem leDecode_leBytes (n v : Nat) (h : v < 256 ^ n) :
    leDecode (leBytes n v) = v := by
  induction n generalizing v with
  | zero =>
    simp only [leBytes, leDecode, List.foldr_nil]
    omega
  | succ k ih =>
    have hdiv : v / 256 < 256 ^ k := by
      rw [Nat.div_lt_iff_lt_mul (by norm_num)]
      calc v < 256 ^ (k + 1) := h
        _ = 256 ^ k * 256 := by rw [pow_succ]
    show leDecode (v % 256 :: leBytes k (v / 256)) = v
    rw [leDecode_cons, ih _ hdiv]
    omega

theorem parseFrame_frame (p rest : Bytes) (h : p.length < 2 ^ 64) :
    parseFrame (frame p ++ rest) = some (p, rest) := by
  have hlen8 : (leBytes 8 p.length).length = 8 := length_leBytes 8 _
  have hC1len :
      (leBytes 4 (maskCrc (checksum_castagnoli (leBytes 8 p.length)))).length = 4 :=
    length_leBytes 4 _
  have hC2len : (leBytes 4 (maskCrc (checksum_castagnoli p))).length = 4 :=
    length_leBytes 4 _
  have h' : p.length < 256 ^ 8 := by
    have h2 := h
    norm_num at h2 ⊢
    exact h2
  have harr : frame p ++ rest
      = leBytes 8 p.length
        ++ (leBytes 4 (maskCrc (checksum_castagnoli (leBytes 8 p.length)))
          ++ (p ++ (leBytes 4 (maskCrc (checksum_castagnoli p)) ++ rest))) := by
    simp [frame, List.append_assoc]
  rw [harr]
  simp only [parseFrame]
  rw [List.take_left' hlen8, List.drop_left' hlen8,
    leDecode_leBytes 8 p.length h',
    List.take_left' hC1len, List.drop_left' hC1len]
  rw [show (p ++ (leBytes 4 (maskCrc (checksum_castagnoli p)) ++ rest)).take p.length
      = p from List.take_left' rfl,
    show (p ++ (leBytes 4 (maskCrc (checksum_castagnoli p)) ++ rest)).drop p.length
      = leBytes 4 (maskCrc (checksum_castagnoli p)) ++ rest from List.drop_left' rfl,
    List.take_left' hC2len, List.drop_left' hC2len]
  rw [if_neg (show ¬((leBytes 8 p.length
        ++ (leBytes 4 (maskCrc (checksum_castagnoli (leBytes 8 p.length)))
          ++ (p ++ (leBytes 4 (maskCrc (checksum_castagnoli p)) ++ rest)))).length < 8) by
      rw [List.length_append, hlen8]
      omega)]
  rw [if_neg (show ¬((leBytes 4 (maskCrc (checksum_castagnoli (leBytes 8 p.length)))
        ++ (p ++ (leBytes 4 (maskCrc (checksum_castagnoli p)) ++ rest))).length < 4) by
      rw [List.length_append, hC1len]
      omega)]
  rw [if_neg (show ¬(leBytes 4 (maskCrc (checksum_castagnoli (leBytes 8 p.length)))
        ≠ leBytes 4 (maskCrc (checksum_castagnoli (leBytes 8 p.length))))
      from fun hne => hne rfl)]
  rw [if_neg (show ¬((p ++ (leBytes 4 (maskCrc (checksum_castagnoli p)) ++ rest)).length
        < p.length) by
      rw [List.length_append]
      omega)]
  rw [if_neg (show ¬((leBytes 4 (maskCrc (checksum_castagnoli p)) ++ rest).length < 4) by
      rw [List.length_append, hC2len]
      omega)]
  rw [if_neg (show ¬(leBytes 4 (maskCrc (checksum_castagnoli p))
        ≠ leBytes 4 (maskCrc (checksum_castagnoli p))) from fun hne => hne rfl)]

/-- C6: each record is framed as 8 little-endian payload-length bytes, the
4-byte little-endian masked CRC-32C of those length bytes, the payload, and
the 4-byte little-endian masked CRC-32C of the payload, with
`masked = (((crc >> 15) | (crc << 17)) + 0xA282EAD8) mod 2^32` over the
Castagnoli polynomial; frames are concatenated with no separators and no
footer, and parsing a frame off the stream recovers exactly the payload and
the remaining stream. -/
theorem tfrecord_frame_format (payload rest : Bytes) (payloads : List Bytes)
    (h : payload.length < 2 ^ 64) :
    frame payload =
      leBytes 8 payload.length
        ++ leBytes 4 (maskCrc (checksum_castagnoli (leBytes 8 payload.length)))
        ++ payload
        ++ leBytes 4 (maskCrc (checksum_castagnoli payload))
    ∧ maskCrc (checksum_castagnoli payload) =
        ((checksum_castagnoli payload >>> 15
            ||| (checksum_castagnoli payload <<< 17) % 2 ^ 32)
          + 0xA282EAD8) % 2 ^ 32
    ∧ parseFrame (frame payload ++ rest) = some (payload, rest)
    ∧ tfrecordStream (payload :: payloads) = frame payload ++ tfrecordStream payloads
    ∧ tfrecordStream [] = [] :=
  ⟨rfl, rfl, parseFrame_frame payload rest h, by simp [tfrecordStream], rfl⟩

/-- C6 witness: the three-byte payload [1,2,3] framed ahead of a one-frame
remainder stream. -/
theorem tfrecord_frame_format_witness :
    ([1, 2, 3] : Bytes).length < 2 ^ 64
    ∧ (frame [1, 2, 3] =
        leBytes 8 ([1, 2, 3] : Bytes).length
          ++ leBytes 4 (maskCrc (checksum_castagnoli (leBytes 8 ([1, 2, 3] : Bytes).length)))
          ++ [1, 2, 3]
          ++ leBytes 4 (maskCrc (checksum_castagnoli [1, 2, 3]))
      ∧ maskCrc (checksum_castagnoli [1, 2, 3]) =
          ((checksum_castagnoli [1, 2, 3] >>> 15
              ||| (checksum_castagnoli [1, 2, 3] <<< 17) % 2 ^ 32)
            + 0xA282EAD8) % 2 ^ 32
      ∧ parseFrame (frame [1, 2, 3] ++ [9]) = some ([1, 2, 3], [9])
      ∧ tfrecordStream ([1, 2, 3] :: [[5]]) = frame [1, 2, 3] ++ tfrecordStream [[5]]
      ∧ tfrecordStream [] = []) :=
  ⟨by decide, tfrecord_frame_format [1, 2, 3] [9] [[5]] (by decide)⟩

end TFTools
